import Mathlib

/-!
Verification of `src/regex_iso8601_datetime.js`.

The source defines two anchored JavaScript regular expressions over strings:

  regex_iso8601_datetime_minimalist =
    /^\d{4}(?:(-?)\d{2}\1\d{2}|(-?)W\d{2}\2[1-7]|-?\d{3})T\d{2}(?:(:?)\d{2}(?:\3\d{2}(?:\.\d{1,6})?)?)?(?:Z|[+\-−]\d{2}(?::?\d{2}(?::?\d{2})?)?)?$/

  regex_iso8601_datetime =
    /^(?<date>(?<year>\d{4})(?:(?<ymd_hyphen>-?)(?<month>\d{2})\k<ymd_hyphen>(?<day>\d{2})|(?<ywd_hyphen>-?)W(?<week>\d{2})\k<ywd_hyphen>(?<weekday>[1-7])|-?(?<ordinalday>\d{3})))T(?<time>(?<hour>\d{2})(?:(?<hms_colon>:?)(?<minute>\d{2})(?:\k<hms_colon>(?<second>\d{2})(?:\.(?<microsecond>\d{1,6}))?)?)?)(?<tzinfo>Z|(?<tzsign>[+\-−])(?<tzhour>\d{2})(?::?(?<tzminute>\d{2})(?::?(?<tzsecond>\d{2}))?)?)?$/

We embed each regex as a total function on `List Char`.  Acceptance of an
anchored regex with back-references means: some choice of the alternations,
optional groups and quantifier lengths makes the pattern cover the whole
string.  The embedding below resolves every such choice deterministically, and
each deterministic commitment is complete for these two patterns:

* every optional literal `-?` / `:?` is immediately followed (on the path that
  takes it) by a digit or `W` requirement, so the literal must be consumed
  exactly when it is present;
* the three date alternatives are tried in the regex's order; whenever an
  earlier alternative matches at a position, no later alternative can lead to
  an overall match there (the calendar form places a digit or `-` where the
  ordinal form would need the literal `T` that follows the date, and the week
  form is discriminated by the letter `W`), so committing to the first locally
  matching alternative loses no matches;
* every optional group `(?:...)?`, once its body matches, consumed a leading
  digit, `:` or `.`; skipping the group instead would leave that character for
  a continuation which only ever admits `Z`, a sign, or end of input, so a
  matched group may be committed;
* `\d{1,6}` is taken greedily; taking fewer digits would leave a digit for the
  same continuation, which rejects it.
-/

namespace Iso8601

/-- U+2212, the Unicode minus sign `−` from the character class of the
timezone sign. -/
def minusSign : Char := Char.ofNat 0x2212

/-- Match `\d{n}`: exactly `n` ASCII digits, returning the digits and the
rest of the input. -/
def takeDigits : Nat → List Char → Option (List Char × List Char)
  | 0, l => some ([], l)
  | _ + 1, [] => none
  | n + 1, c :: l =>
    if c.isDigit then
      match takeDigits n l with
      | some (ds, r) => some (c :: ds, r)
      | none => none
    else none

/-- Greedily take at most `n` ASCII digits (for `\d{1,6}`: at most 6, the
"at least 1" side is checked by the caller). -/
def takeDigitsUpTo : Nat → List Char → (List Char × List Char)
  | 0, l => ([], l)
  | _ + 1, [] => ([], [])
  | n + 1, c :: l =>
    if c.isDigit then
      let (ds, r) := takeDigitsUpTo n l
      (c :: ds, r)
    else ([], c :: l)

/-- Match an optional literal character (`-?`, `:?`): greedily consume it when
present, reporting whether it was. -/
def optChar (c : Char) : List Char → (Bool × List Char)
  | [] => (false, [])
  | d :: l => if d = c then (true, l) else (false, d :: l)

/-- Match one mandatory literal character. -/
def expectChar (c : Char) : List Char → Option (List Char)
  | [] => none
  | d :: l => if d = c then some l else none

/-- Match a literal character sequence; this is how a back-reference
`\k<name>` matches: the previously captured text, literally. -/
def expectLit : List Char → List Char → Option (List Char)
  | [], l => some l
  | _ :: _, [] => none
  | c :: cs, d :: l => if d = c then expectLit cs l else none

/-- The character class `[+\-−]` of `tzsign`. -/
def isTzSign (c : Char) : Bool := c = '+' || c = '-' || c = minusSign

/-- The character class `[1-7]` of `weekday`. -/
def isWeekdayChar (c : Char) : Bool := '1' ≤ c && c ≤ '7'

/-- The date alternation of the expanded regex, after the year:
`(?<ymd_hyphen>-?)(?<month>\d{2})\k<ymd_hyphen>(?<day>\d{2})` (calendar), or
`(?<ywd_hyphen>-?)W(?<week>\d{2})\k<ywd_hyphen>(?<weekday>[1-7])` (week), or
`-?(?<ordinalday>\d{3})` (ordinal).  Each constructor stores the text of the
captured groups; the separator capture is `[]` or `['-']`.  The ordinal
alternative's leading `-?` is not a capture group, but its text is kept so the
`date` super-group span can be reconstructed. -/
inductive DateForm where
  | calendar (sep month day : List Char)
  | weekform (sep week weekday : List Char)
  | ordinalform (sep ordinalday : List Char)
  deriving Repr, DecidableEq

/-- The tail of the time field after `(?<hour>\d{2})`:
`(?:(?<hms_colon>:?)(?<minute>\d{2})(?:\k<hms_colon>(?<second>\d{2})(?:\.(?<microsecond>\d{1,6}))?)?)?`.
The four constructors are the four nesting depths of its optional groups. -/
inductive TimeTail where
  | h0
  | hm (colon minute : List Char)
  | hms (colon minute second : List Char)
  | hmsf (colon minute second frac : List Char)
  deriving Repr, DecidableEq

/-- The tail of a timezone offset after `(?<tzhour>\d{2})`:
`(?::?(?<tzminute>\d{2})(?::?(?<tzsecond>\d{2}))?)?`.  The colons are not
capture groups but their text is kept for the `tzinfo` span. -/
inductive TzTail where
  | t0
  | tm (c1 tzminute : List Char)
  | tms (c1 tzminute c2 tzsecond : List Char)
  deriving Repr, DecidableEq

/-- The timezone alternation `(?<tzinfo>Z|(?<tzsign>[+\-−])(?<tzhour>\d{2})...)`. -/
inductive TzForm where
  | zulu
  | offset (tzsign : Char) (tzhour : List Char) (tail : TzTail)
  deriving Repr, DecidableEq

/-- Text covered by the date alternation (the `date` super-group minus the
year). -/
def dateFormSpan : DateForm → List Char
  | .calendar sep m d => sep ++ m ++ sep ++ d
  | .weekform sep w wd => sep ++ 'W' :: (w ++ sep ++ wd)
  | .ordinalform sep o => sep ++ o

/-- Text covered by the time tail (the `time` super-group minus the hour). -/
def timeTailSpan : TimeTail → List Char
  | .h0 => []
  | .hm c m => c ++ m
  | .hms c m s => c ++ m ++ c ++ s
  | .hmsf c m s f => c ++ m ++ c ++ s ++ '.' :: f

/-- Text covered by the timezone offset tail. -/
def tzTailSpan : TzTail → List Char
  | .t0 => []
  | .tm c1 m => c1 ++ m
  | .tms c1 m c2 s => c1 ++ m ++ c2 ++ s

/-- Text covered by the `tzinfo` super-group. -/
def tzFormSpan : TzForm → List Char
  | .zulu => ['Z']
  | .offset s hh t => s :: (hh ++ tzTailSpan t)

/-- The named capture groups of `regex_iso8601_datetime`, in source order.
A field is `none` exactly when the JavaScript group is `undefined` (its
alternative or optional group did not participate in the match); note that a
participating `-?` or `:?` group captures the empty string, which is
`some []`, not `none`. -/
structure DatetimeGroups where
  date : List Char
  year : List Char
  ymd_hyphen : Option (List Char) := none
  month : Option (List Char) := none
  day : Option (List Char) := none
  ywd_hyphen : Option (List Char) := none
  week : Option (List Char) := none
  weekday : Option (List Char) := none
  ordinalday : Option (List Char) := none
  time : List Char
  hour : List Char
  hms_colon : Option (List Char) := none
  minute : Option (List Char) := none
  second : Option (List Char) := none
  microsecond : Option (List Char) := none
  tzinfo : Option (List Char) := none
  tzsign : Option (List Char) := none
  tzhour : Option (List Char) := none
  tzminute : Option (List Char) := none
  tzsecond : Option (List Char) := none
  deriving Repr, DecidableEq

/-- Calendar alternative `(?<ymd_hyphen>-?)(?<month>\d{2})\k<ymd_hyphen>(?<day>\d{2})`. -/
def expCal (l : List Char) : Option (DateForm × List Char) :=
  let (h, l1) := optChar '-' l
  let sep : List Char := if h then ['-'] else []
  match takeDigits 2 l1 with
  | none => none
  | some (m, l2) =>
    match expectLit sep l2 with
    | none => none
    | some l3 =>
      match takeDigits 2 l3 with
      | none => none
      | some (d, l4) => some (.calendar sep m d, l4)

/-- Week alternative `(?<ywd_hyphen>-?)W(?<week>\d{2})\k<ywd_hyphen>(?<weekday>[1-7])`. -/
def expWeek (l : List Char) : Option (DateForm × List Char) :=
  let (h, l1) := optChar '-' l
  let sep : List Char := if h then ['-'] else []
  match expectChar 'W' l1 with
  | none => none
  | some l2 =>
    match takeDigits 2 l2 with
    | none => none
    | some (w, l3) =>
      match expectLit sep l3 with
      | none => none
      | some l4 =>
        match l4 with
        | [] => none
        | c :: l5 => if isWeekdayChar c then some (.weekform sep w [c], l5) else none

/-- Ordinal alternative `-?(?<ordinalday>\d{3})`. -/
def expOrd (l : List Char) : Option (DateForm × List Char) :=
  let (h, l1) := optChar '-' l
  let sep : List Char := if h then ['-'] else []
  match takeDigits 3 l1 with
  | none => none
  | some (o, r) => some (.ordinalform sep o, r)

/-- The `date` super-group `(?<year>\d{4})(?:calendar|week|ordinal)`, with the
alternatives tried in the regex's order. -/
def expDate (l : List Char) : Option ((List Char × DateForm) × List Char) :=
  match takeDigits 4 l with
  | none => none
  | some (y, l1) =>
    match expCal l1 with
    | some (f, r) => some ((y, f), r)
    | none =>
      match expWeek l1 with
      | some (f, r) => some ((y, f), r)
      | none =>
        match expOrd l1 with
        | some (f, r) => some ((y, f), r)
        | none => none

/-- Fractional seconds `(?:\.(?<microsecond>\d{1,6}))?`: the body, `none` when
the optional group does not participate. -/
def expFrac (l : List Char) : Option (List Char × List Char) :=
  match l with
  | [] => none
  | c :: r =>
    if c = '.' then
      let (ds, r2) := takeDigitsUpTo 6 r
      if ds.isEmpty then none else some (ds, r2)
    else none

/-- The `time` super-group: hour, then the nested optional minute / second /
fraction groups, the colon being fixed by back-reference after its first
occurrence.  Never fails once the two hour digits are present: the outer
group is optional. -/
def expTime (l : List Char) : Option ((List Char × TimeTail) × List Char) :=
  match takeDigits 2 l with
  | none => none
  | some (hh, l1) =>
    let (c, l2) := optChar ':' l1
    let sep : List Char := if c then [':'] else []
    match takeDigits 2 l2 with
    | none => some ((hh, .h0), l1)
    | some (mm, l3) =>
      match expectLit sep l3 with
      | none => some ((hh, .hm sep mm), l3)
      | some l4 =>
        match takeDigits 2 l4 with
        | none => some ((hh, .hm sep mm), l3)
        | some (ss, l5) =>
          match expFrac l5 with
          | none => some ((hh, .hms sep mm ss), l5)
          | some (fs, l6) => some ((hh, .hmsf sep mm ss fs), l6)

/-- The `tzinfo` alternation `Z|(?<tzsign>[+\-−])(?<tzhour>\d{2})(?::?(?<tzminute>\d{2})(?::?(?<tzsecond>\d{2}))?)?`;
`none` when neither alternative matches (the caller treats the group as
absent). -/
def expTz (l : List Char) : Option (TzForm × List Char) :=
  match l with
  | [] => none
  | c :: r =>
    if c = 'Z' then some (.zulu, r)
    else if isTzSign c then
      match takeDigits 2 r with
      | none => none
      | some (hh, l2) =>
        let (b1, l3) := optChar ':' l2
        let c1 : List Char := if b1 then [':'] else []
        match takeDigits 2 l3 with
        | none => some (.offset c hh .t0, l2)
        | some (mm, l4) =>
          let (b2, l5) := optChar ':' l4
          let c2 : List Char := if b2 then [':'] else []
          match takeDigits 2 l5 with
          | none => some (.offset c hh (.tm c1 mm), l4)
          | some (ss, l6) => some (.offset c hh (.tms c1 mm c2 ss), l6)
    else none

/-- Assemble the capture-group record exactly as the JavaScript engine
populates `matches.groups` for a successful anchored match: a group inside an
alternative or optional group that did not participate is `undefined`
(`none`); a participating group holds its captured text. -/
def mkGroups (y : List Char) (df : DateForm) (hh : List Char) (tt : TimeTail)
    (otz : Option TzForm) : DatetimeGroups :=
  { date := y ++ dateFormSpan df
    year := y
    ymd_hyphen := match df with | .calendar sep _ _ => some sep | _ => none
    month := match df with | .calendar _ m _ => some m | _ => none
    day := match df with | .calendar _ _ d => some d | _ => none
    ywd_hyphen := match df with | .weekform sep _ _ => some sep | _ => none
    week := match df with | .weekform _ w _ => some w | _ => none
    weekday := match df with | .weekform _ _ wd => some wd | _ => none
    ordinalday := match df with | .ordinalform _ o => some o | _ => none
    time := hh ++ timeTailSpan tt
    hour := hh
    hms_colon :=
      match tt with
      | .h0 => none | .hm c _ => some c | .hms c _ _ => some c | .hmsf c _ _ _ => some c
    minute :=
      match tt with
      | .h0 => none | .hm _ m => some m | .hms _ m _ => some m | .hmsf _ m _ _ => some m
    second := match tt with | .hms _ _ s => some s | .hmsf _ _ s _ => some s | _ => none
    microsecond := match tt with | .hmsf _ _ _ f => some f | _ => none
    tzinfo := otz.map tzFormSpan
    tzsign := match otz with | some (.offset s _ _) => some [s] | _ => none
    tzhour := match otz with | some (.offset _ th _) => some th | _ => none
    tzminute :=
      match otz with
      | some (.offset _ _ (.tm _ m)) => some m
      | some (.offset _ _ (.tms _ m _ _)) => some m
      | _ => none
    tzsecond := match otz with | some (.offset _ _ (.tms _ _ _ s)) => some s | _ => none }

/-- The expanded (verbose) regex `regex_iso8601_datetime`, anchored `^...$`:
`some groups` on a match of the whole input, `none` otherwise (as
`String.prototype.match` returns `null`).  Being a total Lean function, it can
only return a value, mirroring that the JavaScript match never throws. -/
def regex_iso8601_datetime (l : List Char) : Option DatetimeGroups :=
  match expDate l with
  | none => none
  | some ((y, df), l1) =>
    match expectChar 'T' l1 with
    | none => none
    | some l2 =>
      match expTime l2 with
      | none => none
      | some ((hh, tt), l3) =>
        match expTz l3 with
        | some (tz, l4) =>
          if l4 = [] then some (mkGroups y df hh tt (some tz)) else none
        | none =>
          if l3 = [] then some (mkGroups y df hh tt none) else none

/-- Calendar alternative `(-?)\d{2}\1\d{2}` of the minimalist regex. -/
def minCal (l : List Char) : Option (List Char) :=
  let (h, l1) := optChar '-' l
  let sep : List Char := if h then ['-'] else []
  match takeDigits 2 l1 with
  | none => none
  | some (_, l2) =>
    match expectLit sep l2 with
    | none => none
    | some l3 =>
      match takeDigits 2 l3 with
      | none => none
      | some (_, l4) => some l4

/-- Week alternative `(-?)W\d{2}\2[1-7]` of the minimalist regex. -/
def minWeek (l : List Char) : Option (List Char) :=
  let (h, l1) := optChar '-' l
  let sep : List Char := if h then ['-'] else []
  match expectChar 'W' l1 with
  | none => none
  | some l2 =>
    match takeDigits 2 l2 with
    | none => none
    | some (_, l3) =>
      match expectLit sep l3 with
      | none => none
      | some l4 =>
        match l4 with
        | [] => none
        | c :: l5 => if isWeekdayChar c then some l5 else none

/-- Ordinal alternative `-?\d{3}` of the minimalist regex. -/
def minOrd (l : List Char) : Option (List Char) :=
  let (_, l1) := optChar '-' l
  match takeDigits 3 l1 with
  | none => none
  | some (_, r) => some r

/-- Date part `\d{4}(?:(-?)\d{2}\1\d{2}|(-?)W\d{2}\2[1-7]|-?\d{3})` of the
minimalist regex. -/
def minDate (l : List Char) : Option (List Char) :=
  match takeDigits 4 l with
  | none => none
  | some (_, l1) =>
    match minCal l1 with
    | some r => some r
    | none =>
      match minWeek l1 with
      | some r => some r
      | none =>
        match minOrd l1 with
        | some r => some r
        | none => none

/-- Time part `\d{2}(?:(:?)\d{2}(?:\3\d{2}(?:\.\d{1,6})?)?)?` of the
minimalist regex. -/
def minTime (l : List Char) : Option (List Char) :=
  match takeDigits 2 l with
  | none => none
  | some (_, l1) =>
    let (c, l2) := optChar ':' l1
    let sep : List Char := if c then [':'] else []
    match takeDigits 2 l2 with
    | none => some l1
    | some (_, l3) =>
      match expectLit sep l3 with
      | none => some l3
      | some l4 =>
        match takeDigits 2 l4 with
        | none => some l3
        | some (_, l5) =>
          match expFrac l5 with
          | none => some l5
          | some (_, l6) => some l6

/-- Timezone part `Z|[+\-−]\d{2}(?::?\d{2}(?::?\d{2})?)?` of the
minimalist regex. -/
def minTz (l : List Char) : Option (List Char) :=
  match l with
  | [] => none
  | c :: r =>
    if c = 'Z' then some r
    else if isTzSign c then
      match takeDigits 2 r with
      | none => none
      | some (_, l2) =>
        let (_, l3) := optChar ':' l2
        match takeDigits 2 l3 with
        | none => some l2
        | some (_, l4) =>
          let (_, l5) := optChar ':' l4
          match takeDigits 2 l5 with
          | none => some l4
          | some (_, l6) => some l6
    else none

/-- The minimalist (checking-only) regex `regex_iso8601_datetime_minimalist`,
anchored `^...$`: `true` exactly when the whole input matches. -/
def regex_iso8601_datetime_minimalist (l : List Char) : Bool :=
  match minDate l with
  | none => false
  | some l1 =>
    match expectChar 'T' l1 with
    | none => false
    | some l2 =>
      match minTime l2 with
      | none => false
      | some l3 =>
        match minTz l3 with
        | some l4 => l4 = []
        | none => l3 = []

/-! Shape predicates for the component results. -/

/-- A captured optional hyphen is the empty string or a single hyphen. -/
def sepOk (sep : List Char) : Prop := sep = [] ∨ sep = ['-']

/-- A captured optional colon is the empty string or a single colon. -/
def colonOk (c : List Char) : Prop := c = [] ∨ c = [':']

/-- Text captured by `\d{n}`. -/
def digitsOk (n : Nat) (ds : List Char) : Prop :=
  ds.length = n ∧ ds.all Char.isDigit = true

/-- Shape of the date-alternation captures. -/
def dateFormOk : DateForm → Prop
  | .calendar sep m d => sepOk sep ∧ digitsOk 2 m ∧ digitsOk 2 d
  | .weekform sep w wd => sepOk sep ∧ digitsOk 2 w ∧ ∃ c, wd = [c] ∧ isWeekdayChar c = true
  | .ordinalform sep o => sepOk sep ∧ digitsOk 3 o

/-- Shape of the time-tail captures; the fraction has 1 to 6 digits. -/
def timeTailOk : TimeTail → Prop
  | .h0 => True
  | .hm c m => colonOk c ∧ digitsOk 2 m
  | .hms c m s => colonOk c ∧ digitsOk 2 m ∧ digitsOk 2 s
  | .hmsf c m s f =>
    colonOk c ∧ digitsOk 2 m ∧ digitsOk 2 s ∧
      1 ≤ f.length ∧ f.length ≤ 6 ∧ f.all Char.isDigit = true

/-- Shape of the timezone-offset tail. -/
def tzTailOk : TzTail → Prop
  | .t0 => True
  | .tm c1 m => colonOk c1 ∧ digitsOk 2 m
  | .tms c1 m c2 s => colonOk c1 ∧ digitsOk 2 m ∧ colonOk c2 ∧ digitsOk 2 s

/-- Shape of the timezone captures. -/
def tzFormOk : TzForm → Prop
  | .zulu => True
  | .offset s hh t => isTzSign s = true ∧ digitsOk 2 hh ∧ tzTailOk t

/-- Span of an optional timezone group: empty when the group is absent. -/
def tzSpanOpt : Option TzForm → List Char
  | none => []
  | some tz => tzFormSpan tz

/-! Specifications of the primitive matchers. -/

theorem takeDigits_spec : ∀ (n : Nat) (l ds r : List Char),
    takeDigits n l = some (ds, r) → l = ds ++ r ∧ digitsOk n ds := by
  intro n
  induction n with
  | zero =>
    intro l ds r h
    simp only [takeDigits, Option.some.injEq, Prod.mk.injEq] at h
    obtain ⟨h1, h2⟩ := h
    subst h1; subst h2
    exact ⟨rfl, rfl, rfl⟩
  | succ n ih =>
    intro l ds r h
    match l with
    | [] => simp [takeDigits] at h
    | c :: t =>
      simp only [takeDigits] at h
      by_cases hc : c.isDigit
      · rw [if_pos hc] at h
        rcases h2 : takeDigits n t with _ | ⟨ds', r'⟩
        · rw [h2] at h; exact absurd h (by simp)
        · rw [h2] at h
          simp only [Option.some.injEq, Prod.mk.injEq] at h
          obtain ⟨hds, hr⟩ := h
          obtain ⟨ht, hlen, hall⟩ := ih t ds' r' h2
          subst hds; subst hr; subst ht
          refine ⟨rfl, by simp [hlen], by simp [hall, hc]⟩
      · rw [if_neg hc] at h; exact absurd h (by simp)

theorem takeDigitsUpTo_spec : ∀ (n : Nat) (l ds r : List Char),
    takeDigitsUpTo n l = (ds, r) →
    l = ds ++ r ∧ ds.length ≤ n ∧ ds.all Char.isDigit = true := by
  intro n
  induction n with
  | zero =>
    intro l ds r h
    simp only [takeDigitsUpTo, Prod.mk.injEq] at h
    obtain ⟨h1, h2⟩ := h
    subst h1; subst h2
    exact ⟨rfl, Nat.le_refl 0, rfl⟩
  | succ n ih =>
    intro l ds r h
    match l with
    | [] =>
      simp only [takeDigitsUpTo, Prod.mk.injEq] at h
      obtain ⟨h1, h2⟩ := h
      subst h1; subst h2
      exact ⟨rfl, Nat.zero_le _, rfl⟩
    | c :: t =>
      simp only [takeDigitsUpTo] at h
      by_cases hc : c.isDigit
      · rw [if_pos hc] at h
        rcases h2 : takeDigitsUpTo n t with ⟨ds', r'⟩
        rw [h2] at h
        simp only [Prod.mk.injEq] at h
        obtain ⟨hds, hr⟩ := h
        obtain ⟨ht, hlen, hall⟩ := ih t ds' r' h2
        subst hds; subst hr; subst ht
        refine ⟨rfl, by simpa using hlen, by simp [hall, hc]⟩
      · rw [if_neg hc] at h
        simp only [Prod.mk.injEq] at h
        obtain ⟨h1, h2⟩ := h
        subst h1; subst h2
        exact ⟨rfl, Nat.zero_le _, rfl⟩

theorem optChar_spec (c : Char) (l : List Char) (b : Bool) (r : List Char)
    (h : optChar c l = (b, r)) : l = (if b then [c] else []) ++ r := by
  match l with
  | [] =>
    simp only [optChar, Prod.mk.injEq] at h
    obtain ⟨h1, h2⟩ := h
    subst h1; subst h2; rfl
  | d :: t =>
    simp only [optChar] at h
    by_cases hd : d = c
    · rw [if_pos hd] at h
      simp only [Prod.mk.injEq] at h
      obtain ⟨h1, h2⟩ := h
      subst h1; subst h2; subst hd; rfl
    · rw [if_neg hd] at h
      simp only [Prod.mk.injEq] at h
      obtain ⟨h1, h2⟩ := h
      subst h1; subst h2; rfl

theorem expectChar_spec (c : Char) (l r : List Char)
    (h : expectChar c l = some r) : l = c :: r := by
  match l with
  | [] => simp [expectChar] at h
  | d :: t =>
    simp only [expectChar] at h
    by_cases hd : d = c
    · rw [if_pos hd] at h
      simp only [Option.some.injEq] at h
      subst h; subst hd; rfl
    · rw [if_neg hd] at h; exact absurd h (by simp)

theorem expectLit_spec : ∀ (cs l r : List Char),
    expectLit cs l = some r → l = cs ++ r := by
  intro cs
  induction cs with
  | nil =>
    intro l r h
    simp only [expectLit, Option.some.injEq] at h
    subst h; rfl
  | cons c cs ih =>
    intro l r h
    match l with
    | [] => simp [expectLit] at h
    | d :: t =>
      simp only [expectLit] at h
      by_cases hd : d = c
      · rw [if_pos hd] at h
        have := ih t r h
        subst this; subst hd; rfl
      · rw [if_neg hd] at h; exact absurd h (by simp)

/-! Specifications of the component matchers: every successful component
match yields captures of the documented shape whose concatenation is the
consumed prefix of the input. -/

theorem expCal_spec (l : List Char) (df : DateForm) (r : List Char)
    (h : expCal l = some (df, r)) :
    (∃ sep m d, df = DateForm.calendar sep m d) ∧ dateFormOk df ∧
      l = dateFormSpan df ++ r := by
  unfold expCal at h
  rcases hoc : optChar '-' l with ⟨b, l1⟩
  simp only [hoc] at h
  have hspan0 := optChar_spec '-' l b l1 hoc
  rcases h1 : takeDigits 2 l1 with _ | ⟨m, l2⟩ <;> simp only [h1] at h
  · exact absurd h (by simp)
  obtain ⟨hl1, hm⟩ := takeDigits_spec 2 l1 m l2 h1
  rcases h2 : expectLit (if b then ['-'] else []) l2 with _ | l3 <;> simp only [h2] at h
  · exact absurd h (by simp)
  have hl2 := expectLit_spec _ l2 l3 h2
  rcases h3 : takeDigits 2 l3 with _ | ⟨d, l4⟩ <;> simp only [h3] at h
  · exact absurd h (by simp)
  obtain ⟨hl3, hd⟩ := takeDigits_spec 2 l3 d l4 h3
  simp only [Option.some.injEq, Prod.mk.injEq] at h
  obtain ⟨hdf, hr⟩ := h
  subst hdf; subst hr
  refine ⟨⟨_, _, _, rfl⟩, ⟨?_, hm, hd⟩, ?_⟩
  · cases b <;> simp [sepOk]
  · subst hspan0; subst hl1; subst hl2; subst hl3
    simp [dateFormSpan, List.append_assoc]

theorem expWeek_spec (l : List Char) (df : DateForm) (r : List Char)
    (h : expWeek l = some (df, r)) :
    (∃ sep w wd, df = DateForm.weekform sep w wd) ∧ dateFormOk df ∧
      l = dateFormSpan df ++ r := by
  unfold expWeek at h
  rcases hoc : optChar '-' l with ⟨b, l1⟩
  simp only [hoc] at h
  have hspan0 := optChar_spec '-' l b l1 hoc
  rcases h1 : expectChar 'W' l1 with _ | l2 <;> simp only [h1] at h
  · exact absurd h (by simp)
  have hl1 := expectChar_spec 'W' l1 l2 h1
  rcases h2 : takeDigits 2 l2 with _ | ⟨w, l3⟩ <;> simp only [h2] at h
  · exact absurd h (by simp)
  obtain ⟨hl2, hw⟩ := takeDigits_spec 2 l2 w l3 h2
  rcases h3 : expectLit (if b then ['-'] else []) l3 with _ | l4 <;> simp only [h3] at h
  · exact absurd h (by simp)
  have hl3 := expectLit_spec _ l3 l4 h3
  match l4 with
  | [] => exact absurd h (by simp)
  | c :: l5 =>
    simp only [] at h
    by_cases hc : isWeekdayChar c
    · rw [if_pos hc] at h
      simp only [Option.some.injEq, Prod.mk.injEq] at h
      obtain ⟨hdf, hr⟩ := h
      subst hdf; subst hr
      refine ⟨⟨_, _, _, rfl⟩, ⟨?_, hw, ⟨c, rfl, hc⟩⟩, ?_⟩
      · cases b <;> simp [sepOk]
      · subst hspan0; subst hl1; subst hl2; subst hl3
        simp [dateFormSpan, List.append_assoc]
    · rw [if_neg hc] at h; exact absurd h (by simp)

theorem expOrd_spec (l : List Char) (df : DateForm) (r : List Char)
    (h : expOrd l = some (df, r)) :
    (∃ sep o, df = DateForm.ordinalform sep o) ∧ dateFormOk df ∧
      l = dateFormSpan df ++ r := by
  unfold expOrd at h
  rcases hoc : optChar '-' l with ⟨b, l1⟩
  simp only [hoc] at h
  have hspan0 := optChar_spec '-' l b l1 hoc
  rcases h1 : takeDigits 3 l1 with _ | ⟨o, l2⟩ <;> simp only [h1] at h
  · exact absurd h (by simp)
  obtain ⟨hl1, ho⟩ := takeDigits_spec 3 l1 o l2 h1
  simp only [Option.some.injEq, Prod.mk.injEq] at h
  obtain ⟨hdf, hr⟩ := h
  subst hdf; subst hr
  refine ⟨⟨_, _, rfl⟩, ⟨?_, ho⟩, ?_⟩
  · cases b <;> simp [sepOk]
  · subst hspan0; subst hl1
    simp [dateFormSpan, List.append_assoc]

theorem expDate_spec (l y : List Char) (df : DateForm) (r : List Char)
    (h : expDate l = some ((y, df), r)) :
    digitsOk 4 y ∧ dateFormOk df ∧ l = (y ++ dateFormSpan df) ++ r := by
  unfold expDate at h
  rcases h0 : takeDigits 4 l with _ | ⟨y', l1⟩ <;> simp only [h0] at h
  · exact absurd h (by simp)
  obtain ⟨hl, hy⟩ := takeDigits_spec 4 l y' l1 h0
  rcases h1 : expCal l1 with _ | ⟨f, r'⟩ <;> simp only [h1] at h
  · rcases h2 : expWeek l1 with _ | ⟨f, r'⟩ <;> simp only [h2] at h
    · rcases h3 : expOrd l1 with _ | ⟨f, r'⟩ <;> simp only [h3] at h
      · exact absurd h (by simp)
      · simp only [Option.some.injEq, Prod.mk.injEq] at h
        obtain ⟨⟨hy', hdf⟩, hr⟩ := h
        subst hy'; subst hdf; subst hr
        obtain ⟨_, hok, hspan⟩ := expOrd_spec l1 f r' h3
        subst hl; subst hspan
        exact ⟨hy, hok, by simp [List.append_assoc]⟩
    · simp only [Option.some.injEq, Prod.mk.injEq] at h
      obtain ⟨⟨hy', hdf⟩, hr⟩ := h
      subst hy'; subst hdf; subst hr
      obtain ⟨_, hok, hspan⟩ := expWeek_spec l1 f r' h2
      subst hl; subst hspan
      exact ⟨hy, hok, by simp [List.append_assoc]⟩
  · simp only [Option.some.injEq, Prod.mk.injEq] at h
    obtain ⟨⟨hy', hdf⟩, hr⟩ := h
    subst hy'; subst hdf; subst hr
    obtain ⟨_, hok, hspan⟩ := expCal_spec l1 f r' h1
    subst hl; subst hspan
    exact ⟨hy, hok, by simp [List.append_assoc]⟩

theorem expFrac_spec (l fs r : List Char) (h : expFrac l = some (fs, r)) :
    1 ≤ fs.length ∧ fs.length ≤ 6 ∧ fs.all Char.isDigit = true ∧
      l = '.' :: (fs ++ r) := by
  match l with
  | [] => simp [expFrac] at h
  | c :: t =>
    simp only [expFrac] at h
    by_cases hc : c = '.'
    · rw [if_pos hc] at h
      rcases h1 : takeDigitsUpTo 6 t with ⟨ds, r2⟩
      rw [h1] at h
      simp only [] at h
      obtain ⟨ht, hlen, hall⟩ := takeDigitsUpTo_spec 6 t ds r2 h1
      by_cases he : ds.isEmpty
      · rw [if_pos he] at h; exact absurd h (by simp)
      · rw [if_neg he] at h
        have hpos : 1 ≤ ds.length := by
          cases ds with
          | nil => exact absurd rfl he
          | cons a t2 => simp
        simp only [Option.some.injEq, Prod.mk.injEq] at h
        obtain ⟨h2, h3⟩ := h
        subst hc; subst ht
        refine ⟨?_, ?_, ?_, ?_⟩
        · rw [← h2]; exact hpos
        · rw [← h2]; exact hlen
        · rw [← h2]; exact hall
        · rw [← h2, ← h3]
    · rw [if_neg hc] at h; exact absurd h (by simp)

theorem expTime_spec (l hh : List Char) (tt : TimeTail) (r : List Char)
    (h : expTime l = some ((hh, tt), r)) :
    digitsOk 2 hh ∧ timeTailOk tt ∧ l = (hh ++ timeTailSpan tt) ++ r := by
  unfold expTime at h
  rcases h0 : takeDigits 2 l with _ | ⟨h2, l1⟩ <;> simp only [h0] at h
  · exact absurd h (by simp)
  obtain ⟨hl, hhok⟩ := takeDigits_spec 2 l h2 l1 h0
  rcases hoc : optChar ':' l1 with ⟨c, l2⟩
  simp only [hoc] at h
  have hspanc := optChar_spec ':' l1 c l2 hoc
  have hcok : colonOk (if c then [':'] else []) := by cases c <;> simp [colonOk]
  rcases h1 : takeDigits 2 l2 with _ | ⟨mm, l3⟩ <;> simp only [h1] at h
  · simp only [Option.some.injEq, Prod.mk.injEq] at h
    obtain ⟨⟨hhh, htt⟩, hr⟩ := h
    subst hhh; subst htt; subst hr
    subst hl
    exact ⟨hhok, trivial, by simp [timeTailSpan]⟩
  obtain ⟨hl2, hmok⟩ := takeDigits_spec 2 l2 mm l3 h1
  rcases hb : expectLit (if c then [':'] else []) l3 with _ | l4 <;> simp only [hb] at h
  · simp only [Option.some.injEq, Prod.mk.injEq] at h
    obtain ⟨⟨hhh, htt⟩, hr⟩ := h
    subst hhh; subst htt; subst hr
    subst hl; subst hspanc; subst hl2
    exact ⟨hhok, ⟨hcok, hmok⟩, by simp [timeTailSpan, List.append_assoc]⟩
  have hl3 := expectLit_spec _ l3 l4 hb
  rcases h3 : takeDigits 2 l4 with _ | ⟨ss, l5⟩ <;> simp only [h3] at h
  · simp only [Option.some.injEq, Prod.mk.injEq] at h
    obtain ⟨⟨hhh, htt⟩, hr⟩ := h
    subst hhh; subst htt; subst hr
    subst hl; subst hspanc; subst hl2
    exact ⟨hhok, ⟨hcok, hmok⟩, by simp [timeTailSpan, List.append_assoc]⟩
  obtain ⟨hl4, hsok⟩ := takeDigits_spec 2 l4 ss l5 h3
  rcases h4 : expFrac l5 with _ | ⟨fs, l6⟩ <;> simp only [h4] at h
  · simp only [Option.some.injEq, Prod.mk.injEq] at h
    obtain ⟨⟨hhh, htt⟩, hr⟩ := h
    subst hhh; subst htt; subst hr
    subst hl; subst hspanc; subst hl2; subst hl3; subst hl4
    exact ⟨hhok, ⟨hcok, hmok, hsok⟩, by simp [timeTailSpan, List.append_assoc]⟩
  · obtain ⟨hf1, hf6, hfall, hl5⟩ := expFrac_spec l5 fs l6 h4
    simp only [Option.some.injEq, Prod.mk.injEq] at h
    obtain ⟨⟨hhh, htt⟩, hr⟩ := h
    subst hhh; subst htt; subst hr
    subst hl; subst hspanc; subst hl2; subst hl3; subst hl4; subst hl5
    exact ⟨hhok, ⟨hcok, hmok, hsok, hf1, hf6, hfall⟩,
      by simp [timeTailSpan, List.append_assoc]⟩

theorem expTz_spec (l : List Char) (tz : TzForm) (r : List Char)
    (h : expTz l = some (tz, r)) : tzFormOk tz ∧ l = tzFormSpan tz ++ r := by
  match l with
  | [] => simp [expTz] at h
  | c :: t =>
    simp only [expTz] at h
    by_cases hz : c = 'Z'
    · rw [if_pos hz] at h
      simp only [Option.some.injEq, Prod.mk.injEq] at h
      obtain ⟨htz, hr⟩ := h
      subst htz; subst hr; subst hz
      exact ⟨trivial, rfl⟩
    · rw [if_neg hz] at h
      by_cases hs : isTzSign c
      · rw [if_pos hs] at h
        rcases h1 : takeDigits 2 t with _ | ⟨hhd, l2⟩ <;> simp only [h1] at h
        · exact absurd h (by simp)
        obtain ⟨ht, hhok⟩ := takeDigits_spec 2 t hhd l2 h1
        rcases hoc : optChar ':' l2 with ⟨b1, l3⟩
        simp only [hoc] at h
        have hspan1 := optChar_spec ':' l2 b1 l3 hoc
        have hc1ok : colonOk (if b1 then [':'] else []) := by cases b1 <;> simp [colonOk]
        rcases h2 : takeDigits 2 l3 with _ | ⟨mm, l4⟩ <;> simp only [h2] at h
        · simp only [Option.some.injEq, Prod.mk.injEq] at h
          obtain ⟨htz, hr⟩ := h
          subst htz; subst hr; subst ht
          exact ⟨⟨hs, hhok, trivial⟩, by simp [tzFormSpan, tzTailSpan]⟩
        obtain ⟨hl3, hmok⟩ := takeDigits_spec 2 l3 mm l4 h2
        rcases hoc2 : optChar ':' l4 with ⟨b2, l5⟩
        simp only [hoc2] at h
        have hspan2 := optChar_spec ':' l4 b2 l5 hoc2
        have hc2ok : colonOk (if b2 then [':'] else []) := by cases b2 <;> simp [colonOk]
        rcases h3 : takeDigits 2 l5 with _ | ⟨ss, l6⟩ <;> simp only [h3] at h
        · simp only [Option.some.injEq, Prod.mk.injEq] at h
          obtain ⟨htz, hr⟩ := h
          subst htz; subst hr; subst ht; subst hspan1; subst hl3
          exact ⟨⟨hs, hhok, hc1ok, hmok⟩,
            by simp [tzFormSpan, tzTailSpan, List.append_assoc]⟩
        · obtain ⟨hl5, hsok⟩ := takeDigits_spec 2 l5 ss l6 h3
          simp only [Option.some.injEq, Prod.mk.injEq] at h
          obtain ⟨htz, hr⟩ := h
          subst htz; subst hr; subst ht; subst hspan1; subst hl3; subst hspan2; subst hl5
          exact ⟨⟨hs, hhok, hc1ok, hmok, hc2ok, hsok⟩,
            by simp [tzFormSpan, tzTailSpan, List.append_assoc]⟩
      · rw [if_neg hs] at h; exact absurd h (by simp)

/-- Inversion of a successful full match: the result is `mkGroups` of
component captures of the documented shapes, and the input is the
concatenation of the component spans with the literal `T` in between. -/
theorem match_inv (l : List Char) (g : DatetimeGroups)
    (h : regex_iso8601_datetime l = some g) :
    ∃ y df hh tt otz, g = mkGroups y df hh tt otz ∧
      digitsOk 4 y ∧ dateFormOk df ∧ digitsOk 2 hh ∧ timeTailOk tt ∧
      (∀ tz, otz = some tz → tzFormOk tz) ∧
      l = (y ++ dateFormSpan df) ++ 'T' :: ((hh ++ timeTailSpan tt) ++ tzSpanOpt otz) := by
  unfold regex_iso8601_datetime at h
  rcases h0 : expDate l with _ | ⟨⟨y, df⟩, l1⟩ <;> simp only [h0] at h
  · exact absurd h (by simp)
  obtain ⟨hy, hdf, hl⟩ := expDate_spec l y df l1 h0
  rcases h1 : expectChar 'T' l1 with _ | l2 <;> simp only [h1] at h
  · exact absurd h (by simp)
  have hl1 := expectChar_spec 'T' l1 l2 h1
  rcases h2 : expTime l2 with _ | ⟨⟨hh, tt⟩, l3⟩ <;> simp only [h2] at h
  · exact absurd h (by simp)
  obtain ⟨hhok, httok, hl2⟩ := expTime_spec l2 hh tt l3 h2
  rcases h3 : expTz l3 with _ | ⟨tz, l4⟩ <;> simp only [h3] at h
  · by_cases hemp : l3 = []
    · rw [if_pos hemp] at h
      simp only [Option.some.injEq] at h
      subst h
      refine ⟨y, df, hh, tt, none, rfl, hy, hdf, hhok, httok, ?_, ?_⟩
      · intro tz htz; exact absurd htz (by simp)
      · subst hemp
        rw [hl, hl1, hl2]
        simp [tzSpanOpt, List.append_assoc]
    · rw [if_neg hemp] at h; exact absurd h (by simp)
  · by_cases hemp : l4 = []
    · rw [if_pos hemp] at h
      simp only [Option.some.injEq] at h
      subst h
      obtain ⟨htzok, hl3⟩ := expTz_spec l3 tz l4 h3
      refine ⟨y, df, hh, tt, some tz, rfl, hy, hdf, hhok, httok, ?_, ?_⟩
      · intro tz' htz'
        exact Option.some.inj htz' ▸ htzok
      · subst hemp
        rw [hl, hl1, hl2, hl3]
        simp [tzSpanOpt, List.append_assoc]
    · rw [if_neg hemp] at h; exact absurd h (by simp)

/-! The two grammars differ only in capture bookkeeping: each minimalist
component matcher consumes exactly what its expanded counterpart does. -/

theorem minCal_eq (l : List Char) : minCal l = (expCal l).map Prod.snd := by
  unfold minCal expCal
  rcases hoc : optChar '-' l with ⟨b, l1⟩
  simp only [hoc]
  rcases h1 : takeDigits 2 l1 with _ | ⟨m, l2⟩ <;> simp only [h1]
  · rfl
  rcases h2 : expectLit (if b then ['-'] else []) l2 with _ | l3 <;> simp only [h2]
  · rfl
  rcases h3 : takeDigits 2 l3 with _ | ⟨d, l4⟩ <;> simp only [h3] <;> rfl

theorem minWeek_eq (l : List Char) : minWeek l = (expWeek l).map Prod.snd := by
  unfold minWeek expWeek
  rcases hoc : optChar '-' l with ⟨b, l1⟩
  simp only [hoc]
  rcases h1 : expectChar 'W' l1 with _ | l2 <;> simp only [h1]
  · rfl
  rcases h2 : takeDigits 2 l2 with _ | ⟨w, l3⟩ <;> simp only [h2]
  · rfl
  rcases h3 : expectLit (if b then ['-'] else []) l3 with _ | l4 <;> simp only [h3]
  · rfl
  rcases l4 with _ | ⟨c, l5⟩
  · rfl
  · by_cases hc : isWeekdayChar c <;> simp [hc]

theorem minOrd_eq (l : List Char) : minOrd l = (expOrd l).map Prod.snd := by
  unfold minOrd expOrd
  rcases hoc : optChar '-' l with ⟨b, l1⟩
  simp only [hoc]
  rcases h1 : takeDigits 3 l1 with _ | ⟨o, l2⟩ <;> simp only [h1] <;> rfl

theorem minDate_eq (l : List Char) : minDate l = (expDate l).map Prod.snd := by
  unfold minDate expDate
  rcases h0 : takeDigits 4 l with _ | ⟨y, l1⟩ <;> simp only [h0]
  · rfl
  rw [minCal_eq]
  rcases h1 : expCal l1 with _ | ⟨f, r⟩ <;> simp only [h1, Option.map_some', Option.map_none']
  rw [minWeek_eq]
  rcases h2 : expWeek l1 with _ | ⟨f, r⟩ <;> simp only [h2, Option.map_some', Option.map_none']
  rw [minOrd_eq]
  rcases h3 : expOrd l1 with _ | ⟨f, r⟩ <;> simp only [h3, Option.map_some', Option.map_none']

theorem minTime_eq (l : List Char) : minTime l = (expTime l).map Prod.snd := by
  unfold minTime expTime
  rcases h0 : takeDigits 2 l with _ | ⟨hh, l1⟩ <;> simp only [h0]
  · rfl
  rcases hoc : optChar ':' l1 with ⟨c, l2⟩
  simp only [hoc]
  rcases h1 : takeDigits 2 l2 with _ | ⟨mm, l3⟩ <;> simp only [h1]
  · rfl
  rcases h2 : expectLit (if c then [':'] else []) l3 with _ | l4 <;> simp only [h2]
  · rfl
  rcases h3 : takeDigits 2 l4 with _ | ⟨ss, l5⟩ <;> simp only [h3]
  · rfl
  rcases h4 : expFrac l5 with _ | ⟨fs, l6⟩ <;> simp only [h4] <;> rfl

theorem minTz_eq (l : List Char) : minTz l = (expTz l).map Prod.snd := by
  unfold minTz expTz
  rcases l with _ | ⟨c, t⟩
  · rfl
  simp only []
  by_cases hz : c = 'Z'
  · simp [hz]
  rw [if_neg hz, if_neg hz]
  by_cases hs : isTzSign c
  · rw [if_pos hs, if_pos hs]
    rcases h1 : takeDigits 2 t with _ | ⟨hhd, l2⟩ <;> simp only [h1]
    · rfl
    rcases hoc : optChar ':' l2 with ⟨b1, l3⟩
    simp only [hoc]
    rcases h2 : takeDigits 2 l3 with _ | ⟨mm, l4⟩ <;> simp only [h2]
    · rfl
    rcases hoc2 : optChar ':' l4 with ⟨b2, l5⟩
    simp only [hoc2]
    rcases h3 : takeDigits 2 l5 with _ | ⟨ss, l6⟩ <;> simp only [h3] <;> rfl
  · rw [if_neg hs, if_neg hs]; rfl

/-! Decidable shape predicates used in the claims. -/

/-- Exactly one of the three date forms is populated: calendar (month and
day), week (week and weekday) or ordinal (ordinalday), with the fields of the
other two forms absent. -/
def exclusiveDateForm (g : DatetimeGroups) : Bool :=
  (g.month.isSome && (g.day.isSome &&
    (g.week.isNone && (g.weekday.isNone && g.ordinalday.isNone)))) ||
  ((g.week.isSome && (g.weekday.isSome &&
    (g.month.isNone && (g.day.isNone && g.ordinalday.isNone)))) ||
   (g.ordinalday.isSome && (g.month.isNone &&
    (g.day.isNone && (g.week.isNone && g.weekday.isNone)))))

/-- Nested optionality of the time field: no second without minute, no
microsecond without second, and a present microsecond has 1 to 6 digits. -/
def nestedTimeOk (g : DatetimeGroups) : Bool :=
  (!g.second.isSome || g.minute.isSome) &&
  ((!g.microsecond.isSome || g.second.isSome) &&
    (match g.microsecond with
     | none => true
     | some f => decide (1 ≤ f.length) && (decide (f.length ≤ 6) && f.all Char.isDigit)))

/-- Shape of the timezone designator: absent, the literal `Z`, or a signed
offset whose sign is `+`, `-` or U+2212, with `tzhour` mandatory and
`tzsecond` only present together with `tzminute`. -/
def tzShapeOk (g : DatetimeGroups) : Bool :=
  match g.tzinfo with
  | none => true
  | some tz =>
    decide (tz = ['Z']) ||
      ((match g.tzsign with
        | some [s] => isTzSign s
        | _ => false) &&
       (g.tzhour.isSome && (!g.tzsecond.isSome || g.tzminute.isSome)))

/-! Concrete capture records used by the witnesses. -/

/-- Capture record of `"2020-01-02T12:34:56"`. -/
def gCalSample : DatetimeGroups :=
  { date := "2020-01-02".toList
    year := "2020".toList
    ymd_hyphen := some "-".toList
    month := some "01".toList
    day := some "02".toList
    time := "12:34:56".toList
    hour := "12".toList
    hms_colon := some ":".toList
    minute := some "34".toList
    second := some "56".toList }

/-- Capture record of `"20200102T123456.123456"`. -/
def gFracSample : DatetimeGroups :=
  { date := "20200102".toList
    year := "2020".toList
    ymd_hyphen := some []
    month := some "01".toList
    day := some "02".toList
    time := "123456.123456".toList
    hour := "12".toList
    hms_colon := some []
    minute := some "34".toList
    second := some "56".toList
    microsecond := some "123456".toList }

/-- Capture record of `"2020-W01-2T12:34:56+12:34"`. -/
def gWeekOffSample : DatetimeGroups :=
  { date := "2020-W01-2".toList
    year := "2020".toList
    ywd_hyphen := some "-".toList
    week := some "01".toList
    weekday := some "2".toList
    time := "12:34:56".toList
    hour := "12".toList
    hms_colon := some ":".toList
    minute := some "34".toList
    second := some "56".toList
    tzinfo := some "+12:34".toList
    tzsign := some "+".toList
    tzhour := some "12".toList
    tzminute := some "34".toList }

/-- Capture record of `"2020123T12:34:56Z"`. -/
def gOrdZSample : DatetimeGroups :=
  { date := "2020123".toList
    year := "2020".toList
    ordinalday := some "123".toList
    time := "12:34:56".toList
    hour := "12".toList
    hms_colon := some ":".toList
    minute := some "34".toList
    second := some "56".toList
    tzinfo := some "Z".toList }

/-- Calendar date `2020-01-02`, with or without the hyphen separator. -/
def c4Date (h : Bool) : List Char :=
  "2020".toList ++ ((if h then ['-'] else []) ++
    ("01".toList ++ ((if h then ['-'] else []) ++ "02".toList)))

/-- Time `12:34:56`, with or without the colon separator. -/
def c4Time (c : Bool) : List Char :=
  "12".toList ++ ((if c then [':'] else []) ++
    ("34".toList ++ ((if c then [':'] else []) ++ "56".toList)))

/-! The claims. -/

/-- C1: for every input string, the fast-check grammar
`regex_iso8601_datetime_minimalist` accepts the string if and only if the
decomposing grammar `regex_iso8601_datetime` accepts it: the two regexes
recognize exactly the same language over acceptance. -/
theorem iso8601_fastcheck_decompose_equiv (l : List Char) :
    regex_iso8601_datetime_minimalist l = (regex_iso8601_datetime l).isSome := by
  unfold regex_iso8601_datetime_minimalist regex_iso8601_datetime
  rw [minDate_eq]
  rcases h0 : expDate l with _ | ⟨⟨y, df⟩, l1⟩ <;>
    simp only [h0, Option.map_some', Option.map_none']
  · rfl
  rcases h1 : expectChar 'T' l1 with _ | l2 <;> simp only [h1]
  · rfl
  rw [minTime_eq]
  rcases h2 : expTime l2 with _ | ⟨⟨hh, tt⟩, l3⟩ <;>
    simp only [h2, Option.map_some', Option.map_none']
  · rfl
  rw [minTz_eq]
  rcases h3 : expTz l3 with _ | ⟨tz, l4⟩ <;>
    simp only [h3, Option.map_some', Option.map_none']
  · by_cases hemp : l3 = [] <;> simp [hemp]
  · by_cases hemp : l4 = [] <;> simp [hemp]

/-- C2: for every input string on which the decomposing match succeeds,
exactly one of the three date forms is populated — month and day (calendar),
week and weekday (week), or ordinalday (ordinal) — and the fields of the
other two forms are absent. -/
theorem iso8601_date_forms_exclusive (l : List Char) (g : DatetimeGroups)
    (h : regex_iso8601_datetime l = some g) : exclusiveDateForm g = true := by
  obtain ⟨y, df, hh, tt, otz, hg, _, _, _, _, _, _⟩ := match_inv l g h
  subst hg
  cases df <;> simp [exclusiveDateForm, mkGroups]

/-- C2 witness: the calendar input `"2020-01-02T12:34:56"` decomposes and its
record populates exactly the calendar form. -/
theorem iso8601_date_forms_exclusive_witness :
    regex_iso8601_datetime ("2020-01-02T12:34:56".toList) = some gCalSample ∧
    exclusiveDateForm gCalSample = true :=
  ⟨rfl, iso8601_date_forms_exclusive ("2020-01-02T12:34:56".toList) gCalSample rfl⟩

/-- C3: in every accepted calendar-form input the two hyphen positions hold
the same text (both empty or both `-`, via the back-reference), and likewise
for the week form; the mixed-separator input `"2020-0102T12:34:56"` is
rejected by both grammars. -/
theorem iso8601_separator_consistency :
    (∀ l g, regex_iso8601_datetime l = some g →
      (g.month.isSome = true →
        (g.ymd_hyphen = some [] ∨ g.ymd_hyphen = some ['-']) ∧
        g.date = g.year ++ (g.ymd_hyphen.getD [] ++
          (g.month.getD [] ++ (g.ymd_hyphen.getD [] ++ g.day.getD [])))) ∧
      (g.week.isSome = true →
        (g.ywd_hyphen = some [] ∨ g.ywd_hyphen = some ['-']) ∧
        g.date = g.year ++ (g.ywd_hyphen.getD [] ++ 'W' ::
          (g.week.getD [] ++ (g.ywd_hyphen.getD [] ++ g.weekday.getD []))))) ∧
    regex_iso8601_datetime ("2020-0102T12:34:56".toList) = none ∧
    regex_iso8601_datetime_minimalist ("2020-0102T12:34:56".toList) = false := by
  refine ⟨?_, rfl, rfl⟩
  intro l g h
  obtain ⟨y, df, hh, tt, otz, hg, _, hdf, _, _, _, _⟩ := match_inv l g h
  subst hg
  cases df with
  | calendar sep m d =>
    obtain ⟨hsep, _, _⟩ := hdf
    constructor
    · intro _
      constructor
      · rcases hsep with rfl | rfl <;> simp [mkGroups]
      · simp [mkGroups, dateFormSpan, List.append_assoc]
    · intro hw
      simp [mkGroups] at hw
  | weekform sep w wd =>
    obtain ⟨hsep, _, _⟩ := hdf
    constructor
    · intro hm
      simp [mkGroups] at hm
    · intro _
      constructor
      · rcases hsep with rfl | rfl <;> simp [mkGroups]
      · simp [mkGroups, dateFormSpan, List.append_assoc]
  | ordinalform sep o =>
    constructor
    · intro hm
      simp [mkGroups] at hm
    · intro hw
      simp [mkGroups] at hw

/-- C3 witness: the separator-consistency property instantiated on the
decomposition of `"2020-01-02T12:34:56"`. -/
theorem iso8601_separator_consistency_witness :
    (gCalSample.ymd_hyphen = some [] ∨ gCalSample.ymd_hyphen = some ['-']) ∧
    gCalSample.date = gCalSample.year ++ (gCalSample.ymd_hyphen.getD [] ++
      (gCalSample.month.getD [] ++
        (gCalSample.ymd_hyphen.getD [] ++ gCalSample.day.getD []))) :=
  (iso8601_separator_consistency.1 ("2020-01-02T12:34:56".toList) gCalSample rfl).1 rfl

/-- C4: the date-separator choice and the time-separator choice are
independent — all four combinations of hyphenated/plain date with
colon/plain time are accepted, in particular `"2020-01-02T123456"`. -/
theorem iso8601_date_time_separator_independent :
    (∀ hd hc : Bool,
      regex_iso8601_datetime_minimalist (c4Date hd ++ 'T' :: c4Time hc) = true ∧
      (regex_iso8601_datetime (c4Date hd ++ 'T' :: c4Time hc)).isSome = true) ∧
    regex_iso8601_datetime_minimalist ("2020-01-02T123456".toList) = true ∧
    (regex_iso8601_datetime ("2020-01-02T123456".toList)).isSome = true := by
  refine ⟨?_, rfl, rfl⟩
  intro hd hc
  cases hd <;> cases hc <;> exact ⟨rfl, rfl⟩

/-- C5 counterexample: `"2020123T12"` is accepted by both grammars, yet so is
the digit-prefixed `"92020123T12"` (reparsed as a calendar date), and the
suffix-extended `"2020-01-02T12" ++ "Z"` is accepted as well — extending an
accepted string does not always cause rejection. -/
theorem iso8601_extension_accepted_counterexample :
    regex_iso8601_datetime_minimalist ("2020123T12".toList) = true ∧
    (regex_iso8601_datetime ("2020123T12".toList)).isSome = true ∧
    regex_iso8601_datetime_minimalist ('9' :: "2020123T12".toList) = true ∧
    (regex_iso8601_datetime ('9' :: "2020123T12".toList)).isSome = true ∧
    regex_iso8601_datetime_minimalist ("2020-01-02T12".toList) = true ∧
    regex_iso8601_datetime_minimalist ("2020-01-02T12".toList ++ ['Z']) = true :=
  ⟨rfl, rfl, rfl, rfl, rfl, rfl⟩

theorem takeDigits_cons_nondigit (n : Nat) (c : Char) (s : List Char)
    (hc : c.isDigit = false) : takeDigits (n + 1) (c :: s) = none := by
  simp [takeDigits, hc]

/-- C5 (amended): both grammars anchor the match to the entire input — a
match never covers a proper substring — and any input whose first character
is not an ASCII digit is rejected by both grammars; extending an accepted
string with a character may, however, yield a different accepted string. -/
theorem iso8601_nondigit_prefix_rejected (c : Char) (s : List Char)
    (hc : c.isDigit = false) :
    regex_iso8601_datetime_minimalist (c :: s) = false ∧
    regex_iso8601_datetime (c :: s) = none := by
  have h4 : takeDigits 4 (c :: s) = none := takeDigits_cons_nondigit 3 c s hc
  constructor
  · unfold regex_iso8601_datetime_minimalist minDate
    simp [h4]
  · unfold regex_iso8601_datetime expDate
    simp [h4]

/-- C5 witness: a space before an otherwise valid datetime is rejected by
both grammars. -/
theorem iso8601_nondigit_prefix_rejected_witness :
    regex_iso8601_datetime_minimalist (' ' :: "2020-01-02T12:34:56".toList) = false ∧
    regex_iso8601_datetime (' ' :: "2020-01-02T12:34:56".toList) = none :=
  iso8601_nondigit_prefix_rejected ' ' ("2020-01-02T12:34:56".toList) rfl

/-- C6: the time field is strictly nested — hour may stand alone, minute may
appear without second, second never appears without minute, and microsecond
appears only with second and has 1 to 6 digits; a lone hour is accepted and a
7-digit fraction is rejected. -/
theorem iso8601_time_nested_optionality :
    (∀ l g, regex_iso8601_datetime l = some g → nestedTimeOk g = true) ∧
    (regex_iso8601_datetime ("2020-01-02T12".toList)).isSome = true ∧
    regex_iso8601_datetime ("2020-01-02T12:34:56.1234567".toList) = none ∧
    regex_iso8601_datetime_minimalist ("2020-01-02T12:34:56.1234567".toList) = false := by
  refine ⟨?_, rfl, rfl, rfl⟩
  intro l g h
  obtain ⟨y, df, hh, tt, otz, hg, _, _, _, htt, _, _⟩ := match_inv l g h
  subst hg
  cases tt with
  | h0 => simp [nestedTimeOk, mkGroups]
  | hm c m => simp [nestedTimeOk, mkGroups]
  | hms c m s => simp [nestedTimeOk, mkGroups]
  | hmsf c m s f =>
    obtain ⟨_, _, _, h1, h6, hall⟩ := htt
    simp [nestedTimeOk, mkGroups, h1, h6, hall]

/-- C6 witness: the nested-optionality property instantiated on the
decomposition of `"20200102T123456.123456"`. -/
theorem iso8601_time_nested_optionality_witness :
    nestedTimeOk gFracSample = true :=
  iso8601_time_nested_optionality.1 ("20200102T123456.123456".toList) gFracSample rfl

/-- C7: the timezone designator is fully optional; when present it is the
literal `Z` or a signed offset with sign in {`+`, `-`, U+2212}, `tzhour`
mandatory, and `tzsecond` only together with `tzminute`; its colons are
independent of the date and time separators (and of each other). -/
theorem iso8601_timezone_shape :
    (∀ l g, regex_iso8601_datetime l = some g → tzShapeOk g = true) ∧
    (regex_iso8601_datetime ("2020-01-02T12:34:56".toList)).isSome = true ∧
    (regex_iso8601_datetime ("2020-01-02T12:34:56Z".toList)).isSome = true ∧
    (regex_iso8601_datetime ("2020-01-02T12:34:56+12".toList)).isSome = true ∧
    (regex_iso8601_datetime
      ("2020-01-02T12:34:56".toList ++ minusSign :: "12:34".toList)).isSome = true ∧
    (regex_iso8601_datetime ("20200102T123456+12:34".toList)).isSome = true ∧
    (regex_iso8601_datetime ("2020-01-02T12:34:56+1234".toList)).isSome = true ∧
    (regex_iso8601_datetime ("2020-01-02T12:34:56+12:3456".toList)).isSome = true ∧
    (regex_iso8601_datetime ("2020-01-02T12:34:56+1234:56".toList)).isSome = true := by
  refine ⟨?_, rfl, rfl, rfl, rfl, rfl, rfl, rfl, rfl⟩
  intro l g h
  obtain ⟨y, df, hh, tt, otz, hg, _, _, _, _, htz, _⟩ := match_inv l g h
  subst hg
  rcases otz with _ | tz
  · simp [tzShapeOk, mkGroups]
  rcases tz with _ | ⟨s, th, t⟩
  · simp [tzShapeOk, mkGroups, tzFormSpan]
  · obtain ⟨hs, _, _⟩ := htz _ rfl
    cases t <;> simp [tzShapeOk, mkGroups, tzFormSpan, hs]

/-- C7 witness: the timezone-shape property instantiated on the decomposition
of `"2020-W01-2T12:34:56+12:34"`. -/
theorem iso8601_timezone_shape_witness : tzShapeOk gWeekOffSample = true :=
  iso8601_timezone_shape.1 ("2020-W01-2T12:34:56+12:34".toList) gWeekOffSample rfl

/-- C8: no semantic calendar validation is performed — `"2020-13-99T12:34:56"`
(month 13, day 99) and `"2020-01-02T29:00:00"` (hour 29) match both
grammars. -/
theorem iso8601_no_semantic_validation :
    regex_iso8601_datetime_minimalist ("2020-13-99T12:34:56".toList) = true ∧
    (regex_iso8601_datetime ("2020-13-99T12:34:56".toList)).isSome = true ∧
    regex_iso8601_datetime_minimalist ("2020-01-02T29:00:00".toList) = true ∧
    (regex_iso8601_datetime ("2020-01-02T29:00:00".toList)).isSome = true :=
  ⟨rfl, rfl, rfl, rfl⟩

/-- C9: on a grammar violation the decomposing match returns the absent
result rather than a partial record or a fault (the embedding is a total
function into `Option`); in particular the date-only input `"2020-01-02"`
yields `none` and fails the fast check. -/
theorem iso8601_violation_returns_none :
    regex_iso8601_datetime ("2020-01-02".toList) = none ∧
    regex_iso8601_datetime_minimalist ("2020-01-02".toList) = false :=
  ⟨rfl, rfl⟩

/-- C10: whenever the decomposing match succeeds, the three super-group
captures partition the input: date ++ "T" ++ time ++ tzinfo (empty when
absent) reproduces the original string. -/
theorem iso8601_supergroups_partition_input (l : List Char) (g : DatetimeGroups)
    (h : regex_iso8601_datetime l = some g) :
    l = g.date ++ 'T' :: (g.time ++ g.tzinfo.getD []) := by
  obtain ⟨y, df, hh, tt, otz, hg, _, _, _, _, _, hspan⟩ := match_inv l g h
  subst hg
  rcases otz with _ | tz <;>
    simpa [mkGroups, tzSpanOpt, List.append_assoc] using hspan

/-- C10 witness: the partition property instantiated on the decomposition of
`"2020123T12:34:56Z"`. -/
theorem iso8601_supergroups_partition_input_witness :
    "2020123T12:34:56Z".toList =
      gOrdZSample.date ++ 'T' :: (gOrdZSample.time ++ gOrdZSample.tzinfo.getD []) :=
  iso8601_supergroups_partition_input ("2020123T12:34:56Z".toList) gOrdZSample rfl

end Iso8601
